import Mathlib

/-!
Shallow embedding of the account-pool gateway (account pool, per-capability
cooldowns, round-robin selection, session-affinity cache, streaming JSON
array decoder, retry loop, task logging) together with proofs of the
behavioural properties stated about it.

Conventions of the embedding:
* machine time (`time.time()`) is passed explicitly as an `Int` parameter
  called `now`; cooldown windows are `Int` seconds;
* Python dicts keyed by strings are association lists in insertion order
  (`dictGet` / `dictInsert` below reproduce lookup and insert-or-overwrite
  semantics, including the fact that overwriting keeps the key position and
  a fresh key is appended at the end);
* functions that raise `HTTPException` are embedded as `Except`-returning
  functions; logging calls have no observable effect and are dropped;
* persistence (database / file storage) is an external collaborator: only
  the in-memory effect of each operation is modelled.
-/

/-- Capability ("quota type") universe, from `QUOTA_TYPES` in
`core/account.py` (the dict keys; the display strings are irrelevant). -/
def QUOTA_TYPES : List String := ["text", "images", "videos"]

/-- Dictionary lookup on an association list, mirroring `dict.get`:
the first (and, with unique keys, only) binding of the key. -/
def dictGet {β : Type} : List (String × β) → String → Option β
  | [], _ => none
  | (k', v) :: rest, k => if k' = k then some v else dictGet rest k

/-- Dictionary insert-or-overwrite, mirroring `d[k] = v` on a Python dict:
an existing key keeps its position and gets the new value, a fresh key is
appended at the end of the iteration order. -/
def dictInsert {β : Type} (d : List (String × β)) (k : String) (v : β) : List (String × β) :=
  if k ∈ d.map Prod.fst then
    d.map (fun p => if p.1 = k then (k, v) else p)
  else d ++ [(k, v)]

/-- Keys of an association list, in iteration order. -/
def dictKeys {β : Type} (d : List (String × β)) : List String := d.map Prod.fst

/-- `AccountConfig` (`core/account.py`): the fields the pool logic reads.
`expires_at` is the parsed expiry instant; `none` covers both an unset
`expires_at` string and a string the source fails to parse (both make
`get_remaining_hours` return `None`).  Credential and mail fields are
carried by the source but never read by the logic modelled here. -/
structure AccountConfig where
  account_id : String
  expires_at : Option Int
  disabled : Bool
deriving DecidableEq

/-- `AccountConfig.is_expired`: expired iff the remaining time
`expires_at - now` is `≤ 0`; with no (parseable) expiry it is `False`. -/
def AccountConfig.is_expired (cfg : AccountConfig) (now : Int) : Bool :=
  match cfg.expires_at with
  | none => false
  | some e => decide (e - now ≤ 0)

/-- `AccountManager` (`core/account.py`): one account's mutable runtime
state.  `quota_cooldowns` is the capability → timestamp-of-failure dict;
the three `*_rate_limit_cooldown_seconds` fields are the per-capability
windows installed from the retry policy. -/
structure AccountManager where
  config : AccountConfig
  text_rate_limit_cooldown_seconds : Int
  images_rate_limit_cooldown_seconds : Int
  videos_rate_limit_cooldown_seconds : Int
  is_available : Bool
  quota_cooldowns : List (String × Int)
  conversation_count : Nat
  failure_count : Nat
  session_usage_count : Nat
deriving DecidableEq

/-- `AccountManager._get_quota_cooldown_seconds`: the window for a
capability; anything other than `images`/`videos` falls back to the text
window. -/
def AccountManager.get_quota_cooldown_seconds (acc : AccountManager) (quota_type : String) : Int :=
  if quota_type = "images" then acc.images_rate_limit_cooldown_seconds
  else if quota_type = "videos" then acc.videos_rate_limit_cooldown_seconds
  else acc.text_rate_limit_cooldown_seconds

/-- `AccountManager.is_quota_available` (read-only part): unknown
capability names are available; a missing entry is available; an entry of
`0` is available because Python tests the timestamp with a truthiness
check (`if not cooldown_time`); otherwise the capability is unavailable
exactly while `now - t < window`.  The lazy deletion the source performs
on an elapsed entry removes an entry this predicate already reports
available, so it does not change any availability answer. -/
def AccountManager.is_quota_available (acc : AccountManager) (now : Int) (quota_type : String) : Bool :=
  if quota_type ∈ QUOTA_TYPES then
    match dictGet acc.quota_cooldowns quota_type with
    | none => true
    | some t =>
      if t = 0 then true
      else if now - t < acc.get_quota_cooldown_seconds quota_type then false
      else true
  else true

/-- `AccountManager.are_quotas_available`: an empty/absent requirement set
is vacuously available (`if not quota_types`); otherwise the `text`
capability is checked first unconditionally, then every non-`text`
requested capability. -/
def AccountManager.are_quotas_available (acc : AccountManager) (now : Int) (quota_types : List String) : Bool :=
  if quota_types = [] then true
  else if acc.is_quota_available now "text" = false then false
  else quota_types.all (fun qt => if qt = "text" then true else acc.is_quota_available now qt)

/-- Shared guard of both error handlers
(`if not quota_type or quota_type not in QUOTA_TYPES: quota_type = "text"`):
`none` and the empty string are falsy, unknown names are replaced by
`"text"`. -/
def normalize_quota_type (quota_type : Option String) : String :=
  match quota_type with
  | none => "text"
  | some s => if s = "" ∨ s ∉ QUOTA_TYPES then "text" else s

/-- `AccountManager.handle_non_http_error`: stamps the (normalized)
capability's cooldown with the current time; the context/request-id
arguments only feed the log line. -/
def AccountManager.handle_non_http_error (acc : AccountManager) (now : Int)
    (quota_type : Option String) : AccountManager :=
  let qt := normalize_quota_type quota_type
  { acc with quota_cooldowns := dictInsert acc.quota_cooldowns qt now }

/-- `AccountManager.handle_http_error`: status `400` is logged only and
changes nothing; every other status stamps the (normalized) capability's
cooldown with the current time.  The status feeds only the log line. -/
def AccountManager.handle_http_error (acc : AccountManager) (now : Int)
    (status_code : Int) (quota_type : Option String) : AccountManager :=
  if status_code = 400 then acc
  else
    let qt := normalize_quota_type quota_type
    { acc with quota_cooldowns := dictInsert acc.quota_cooldowns qt now }

/-- `AccountManager.should_retry`: the source always returns `True`. -/
def AccountManager.should_retry (_acc : AccountManager) : Bool := true

/-- `MultiAccountManager.get_available_accounts`: pool-order filter keeping
accounts that are not manually disabled, not expired, and whose required
quotas are all available. -/
def get_available_accounts (pool : List AccountManager) (now : Int)
    (required_quota_types : List String) : List AccountManager :=
  pool.filter (fun acc =>
    if acc.config.disabled then false
    else if acc.config.is_expired now then false
    else acc.are_quotas_available now required_quota_types)

/-- The selection counter state of `MultiAccountManager`
(`_request_counter`, `_last_account_count`), mutated under
`_counter_lock`. -/
structure SelState where
  request_counter : Nat
  last_account_count : Nat
deriving DecidableEq

/-- One execution of the counter block of `MultiAccountManager.get_account`
for a selectable-set of size `n`: reseed the counter to the drawn random
value `r` exactly when `n` differs from the previously observed size, pick
index `counter % n`, then increment the counter.  Returns the chosen index
and the successor state. -/
def rrStep (n : Nat) (r : Nat) (s : SelState) : Nat × SelState :=
  let s1 := if n ≠ s.last_account_count
    then { request_counter := r, last_account_count := n }
    else s
  (s1.request_counter % n, { s1 with request_counter := s1.request_counter + 1 })

/-- Error taxonomy of `get_account`: `HTTPException(404)` for an unknown
explicit id, `HTTPException(503)` otherwise. -/
inductive SelectError
  | NotFound
  | Unavailable
deriving DecidableEq

/-- In-place `selected.session_usage_count += 1` of the anonymous
selection path. -/
def bump_session_usage (acc : AccountManager) : AccountManager :=
  { acc with session_usage_count := acc.session_usage_count + 1 }

/-- `MultiAccountManager.get_account`.  Explicit-id path: 404 when the id
is not in the pool; then `should_retry` (constantly true) and
`are_quotas_available` are consulted, each failure raising 503; note the
explicit path consults neither `disabled` nor `is_expired`.  Anonymous
path: filter the pool, 503 on empty, otherwise round-robin via `rrStep`
(the final `match` arm is unreachable because the chosen index is a
remainder modulo the length). -/
def get_account (pool : List AccountManager) (now : Int) (s : SelState) (r : Nat)
    (account_id : Option String) (required_quota_types : List String) :
    Except SelectError (AccountManager × SelState) :=
  match account_id with
  | some id =>
    match pool.find? (fun a => a.config.account_id == id) with
    | none => Except.error SelectError.NotFound
    | some account =>
      if account.should_retry = false then Except.error SelectError.Unavailable
      else if account.are_quotas_available now required_quota_types = false then
        Except.error SelectError.Unavailable
      else Except.ok (account, s)
  | none =>
    let available := get_available_accounts pool now required_quota_types
    if available.length = 0 then Except.error SelectError.Unavailable
    else
      let p := rrStep available.length r s
      match available[p.1]? with
      | some selected => Except.ok (bump_session_usage selected, p.2)
      | none => Except.error SelectError.Unavailable

/-- Indices chosen by `k` consecutive anonymous `get_account` calls whose
selectable-set size stays `n`; `rs i` is the random value the `i`-th call
would use on a reseed. -/
def rrRunIdx (n : Nat) (rs : Nat → Nat) : Nat → SelState → List Nat
  | 0, _ => []
  | Nat.succ k, s =>
    let p := rrStep n (rs 0) s
    p.1 :: rrRunIdx n (fun i => rs (i + 1)) k p.2

/-- Flag write of `update_account_disabled_status` /
`bulk_update_account_disabled_status` on one account. -/
def set_account_disabled (acc : AccountManager) (disabled : Bool) : AccountManager :=
  { acc with config := { acc.config with disabled := disabled } }

/-- `update_account_disabled_status` (`core/account.py`), in-memory
effect: error when the id is unknown, otherwise set the flag on that
account.  Persistence of the flag is an external collaborator; nothing
else on the account is touched. -/
def update_account_disabled_status (pool : List AccountManager) (account_id : String)
    (disabled : Bool) : Except String (List AccountManager) :=
  if pool.any (fun a => a.config.account_id == account_id) then
    Except.ok (pool.map (fun a =>
      if a.config.account_id = account_id then set_account_disabled a disabled else a))
  else Except.error "account not found"

/-- `bulk_update_account_disabled_status` (`core/account.py`), in-memory
effect: set the flag on every listed id that is present; the returned
count is the number of listed ids (per occurrence) found in the pool. -/
def bulk_update_account_disabled_status (pool : List AccountManager)
    (account_ids : List String) (disabled : Bool) : List AccountManager × Nat :=
  (pool.map (fun a =>
     if a.config.account_id ∈ account_ids then set_account_disabled a disabled else a),
   (account_ids.filter (fun id => pool.any (fun a => a.config.account_id == id))).length)

/-- `account_mgr.quota_cooldowns = {}` — the runtime cooldown reset the
admin enable endpoints perform. -/
def clear_quota_cooldowns (acc : AccountManager) : AccountManager :=
  { acc with quota_cooldowns := [] }

/-- `admin_enable_account` (`main.py`): the single-account manual
re-enable operation — clear the `disabled` flag via
`update_account_disabled_status(id, False)`, then reset that account's
`quota_cooldowns` to the empty dict (the persistence call that follows is
external). -/
def admin_enable_account (pool : List AccountManager) (account_id : String) :
    Except String (List AccountManager) :=
  match update_account_disabled_status pool account_id false with
  | Except.error e => Except.error e
  | Except.ok pool1 =>
    Except.ok (if pool1.any (fun a => a.config.account_id == account_id)
      then pool1.map (fun a =>
        if a.config.account_id = account_id then clear_quota_cooldowns a else a)
      else pool1)

/-- `admin_bulk_enable_accounts` (`main.py`): the bulk manual re-enable —
clear the flags via `bulk_update_account_disabled_status(ids, False)`,
then reset `quota_cooldowns` of every listed id present in the pool. -/
def admin_bulk_enable_accounts (pool : List AccountManager) (account_ids : List String) :
    List AccountManager × Nat :=
  let p := bulk_update_account_disabled_status pool account_ids false
  (p.1.map (fun a =>
     if a.config.account_id ∈ account_ids then clear_quota_cooldowns a else a),
   p.2)

/-- One entry of `MultiAccountManager.global_session_cache`:
`{"account_id": ..., "session_id": ..., "updated_at": ...}`. -/
structure CacheEntry where
  account_id : String
  session_id : String
  updated_at : Int
deriving DecidableEq

/-- `MultiAccountManager.cache_max_size` (fixed at 1000 in the source). -/
def cache_max_size : Nat := 1000

/-- Sort key of `_ensure_cache_size` (`key=lambda x: x[1]["updated_at"]`). -/
def entryLe (x y : String × CacheEntry) : Prop := x.2.updated_at ≤ y.2.updated_at

instance : DecidableRel entryLe := fun x y => Int.decLe x.2.updated_at y.2.updated_at

instance : IsTotal (String × CacheEntry) entryLe :=
  ⟨fun x y => Int.le_total x.2.updated_at y.2.updated_at⟩

instance : IsTrans (String × CacheEntry) entryLe :=
  ⟨fun _ _ _ hxy hyz => le_trans hxy hyz⟩

/-- `MultiAccountManager._clean_expired_cache`: delete every binding whose
age `now - updated_at` strictly exceeds the TTL. -/
def clean_expired_cache (cache : List (String × CacheEntry)) (now ttl : Int) :
    List (String × CacheEntry) :=
  cache.filter (fun p => if now - p.2.updated_at > ttl then false else true)

/-- `MultiAccountManager._ensure_cache_size`: when the binding count
exceeds `cache_max_size`, sort by `updated_at` ascending (Python `sorted`
is stable, as is insertion sort) and delete the oldest entries down to 80%
of capacity; `int(1000 * 0.8) = 800 = cache_max_size * 8 / 10` exactly. -/
def ensure_cache_size (cache : List (String × CacheEntry)) : List (String × CacheEntry) :=
  if cache.length > cache_max_size then
    let sorted_items := List.insertionSort entryLe cache
    let remove_count := sorted_items.length - cache_max_size * 8 / 10
    let removed_keys := (sorted_items.take remove_count).map Prod.fst
    cache.filter (fun p => if p.1 ∈ removed_keys then false else true)
  else cache

/-- `MultiAccountManager.set_session_cache`: insert/overwrite the binding
with `updated_at = now`, then enforce capacity. -/
def set_session_cache (cache : List (String × CacheEntry))
    (conv_key account_id session_id : String) (now : Int) : List (String × CacheEntry) :=
  ensure_cache_size (dictInsert cache conv_key
    { account_id := account_id, session_id := session_id, updated_at := now })

/-- One iteration of `MultiAccountManager.start_background_cleanup` (the
300-second sweep): TTL expiry first, capacity enforcement second. -/
def background_cleanup_step (cache : List (String × CacheEntry)) (now ttl : Int) :
    List (String × CacheEntry) :=
  ensure_cache_size (clean_expired_cache cache now ttl)

/-- `max_retries = min(MAX_ACCOUNT_SWITCH_TRIES, len(available_accounts))`
(`main.py`, session-creation loop and `response_wrapper`). -/
def max_retries_for (max_account_switch_tries : Nat) (available_count : Nat) : Nat :=
  min max_account_switch_tries available_count

/-- Number of loop iterations actually executed by
`for retry_idx in range(budget)` when iteration `i` breaks out on success
(`attempt_succeeds i = true`) and a failing final iteration raises:
either way no iteration beyond the budget runs. -/
def attempts_performed (attempt_succeeds : Nat → Bool) : Nat → Nat → Nat
  | _, 0 => 0
  | i, Nat.succ budget =>
    if attempt_succeeds i then 1 else 1 + attempts_performed attempt_succeeds (i + 1) budget

/-- Attempt count of the retry loops in `main.py` (`chat_impl` session
creation and `response_wrapper`): the budget is
`min(MAX_ACCOUNT_SWITCH_TRIES, len(get_available_accounts(...)))`. -/
def retry_loop_attempts (max_account_switch_tries : Nat) (pool : List AccountManager)
    (now : Int) (required_quota_types : List String) (attempt_succeeds : Nat → Bool) : Nat :=
  attempts_performed attempt_succeeds 0
    (max_retries_for max_account_switch_tries
      (get_available_accounts pool now required_quota_types).length)

/-- One entry of a task's bounded log (`BaseTaskService._append_log`). -/
structure LogEntry where
  time : String
  level : String
  message : String
deriving DecidableEq

/-- `BaseTask` (`core/base_task_service.py`): the task state that
`_append_log` reads and writes. -/
structure BaseTask where
  logs : List LogEntry
  cancel_requested : Bool
  cancel_reason : Option String
deriving DecidableEq

/-- The allow-list prefixes of `_append_log` (`safe_messages`). -/
def safe_messages : List String :=
  ["cancel requested:", "task cancelled", "task cancelled while pending",
   "login task cancelled:", "register task cancelled:"]

/-- `BaseTaskService._append_log`: the entry is appended first (capped at
the last 200 entries); afterwards, if the task's cancellation flag is set
and the message does not start with an allow-listed prefix, the call
raises `TaskCancelledError` — the returned `Bool` records that raise. -/
def append_log (task : BaseTask) (now_str level message : String) : BaseTask × Bool :=
  let entry : LogEntry := { time := now_str, level := level, message := message }
  let logs1 := task.logs ++ [entry]
  let logs2 := if logs1.length > 200 then logs1.drop (logs1.length - 200) else logs1
  let task1 := { task with logs := logs2 }
  if task1.cancel_requested && ! safe_messages.any (fun x => message.startsWith x) then
    (task1, true)
  else (task1, false)

/-- The opening-brace character (written as an escape throughout). -/
def braceOpen : Char := '\x7b'

/-- The closing-brace character (written as an escape throughout). -/
def braceClose : Char := '\x7d'

/-- Whitespace recognised by Python's `str.strip()`. -/
def pyIsSpace (c : Char) : Bool :=
  c == ' ' || c == '\t' || c == '\n' || c == '\r' || c == '\x0b' || c == '\x0c'

/-- Python `str.strip()`: drop whitespace from both ends. -/
def pyStrip (s : String) : String :=
  String.mk (((s.toList.dropWhile pyIsSpace).reverse.dropWhile pyIsSpace).reverse)

/-- Loop state of `parse_json_array_stream` (`util/streaming_parser.py`):
the accumulated object buffer, the brace depth (an `Int`: a stray closing
brace at depth 0 drives it negative exactly as in the source), the
in-string and escape flags, and the object texts yielded so far.  The
source hands each completed text to `json.loads` and yields the decoded
dict; the stdlib decoder is an external collaborator, so the embedding
records the exact texts handed to it. -/
structure StreamState where
  buffer : List Char
  brace_level : Int
  in_string : Bool
  escape_next : Bool
  yields : List String
deriving DecidableEq

/-- The character step of the main loop of `parse_json_array_stream`,
transcribing the branch structure of the source: escape handling first,
then the backslash, then a quote at depth > 0 toggles `in_string`; outside
a string an opening brace resets the buffer at depth 0 and increments the
depth, every character at depth > 0 is buffered, and a closing brace
decrements the depth and, when depth returns to 0 with a non-empty buffer,
yields the buffered text and resets buffer and string flag; inside a
string characters are simply buffered. -/
def processChar (st : StreamState) (c : Char) : StreamState :=
  if st.escape_next then
    { st with buffer := if st.brace_level > 0 then st.buffer ++ [c] else st.buffer,
              escape_next := false }
  else if c = '\\' then
    { st with buffer := if st.brace_level > 0 then st.buffer ++ [c] else st.buffer,
              escape_next := true }
  else if c = '"' ∧ st.brace_level > 0 then
    { st with in_string := ! st.in_string, buffer := st.buffer ++ [c] }
  else if st.in_string = false then
    let st1 := if c = braceOpen then
        { st with buffer := if st.brace_level = 0 then [] else st.buffer,
                  brace_level := st.brace_level + 1 }
      else st
    let st2 := if st1.brace_level > 0 then { st1 with buffer := st1.buffer ++ [c] } else st1
    if c = braceClose then
      let st3 := { st2 with brace_level := st2.brace_level - 1 }
      if st3.brace_level = 0 ∧ st3.buffer ≠ [] then
        { st3 with yields := st3.yields ++ [String.mk st3.buffer],
                   buffer := [], in_string := false }
      else st3
    else st2
  else
    { st with buffer := if st.brace_level > 0 then st.buffer ++ [c] else st.buffer }

/-- One line fed through the character loop. -/
def processLine (st : StreamState) (line : String) : StreamState :=
  line.toList.foldl processChar st

/-- Opening phase of `parse_json_array_stream`: skip lines (including
blank-after-strip ones) until one whose stripped form starts with the
array bracket — `startswith('[')` is exactly a first-character test, and
an empty stripped line has no first character, covering the
`if not stripped_line: continue`; that line, minus the bracket, is pushed
back in front of the remaining lines (`itertools.chain`). -/
def findArrayStart : List String → Option (String × List String)
  | [] => none
  | line :: rest =>
    match (pyStrip line).toList with
    | c :: cs => if c = '[' then some (String.mk cs, rest) else findArrayStart rest
    | [] => findArrayStart rest

/-- Initial decoder state. -/
def initStreamState : StreamState :=
  { buffer := [], brace_level := 0, in_string := false, escape_next := false, yields := [] }

/-- `parse_json_array_stream` over a finite line sequence: `Except.error`
is the `ValueError` raised when no line opens the array; otherwise the
result carries the yielded object texts in order and a flag that is true
exactly when the end-of-input depth check fires the non-fatal truncation
warning (`brace_level != 0`). -/
def parse_json_array_stream (lines : List String) : Except String (List String × Bool) :=
  match findArrayStart lines with
  | none => Except.error "missing array opening bracket"
  | some (rem, rest) =>
    let final := (rem :: rest).foldl processLine initStreamState
    Except.ok (final.yields, decide (final.brace_level ≠ 0))

/-- Concrete account constructor used by the concrete instances below
(cooldown windows 3600 seconds for every capability, fresh counters). -/
def mkAccount (id : String) (disabled : Bool) (cooldowns : List (String × Int)) : AccountManager :=
  { config := { account_id := id, expires_at := none, disabled := disabled },
    text_rate_limit_cooldown_seconds := 3600,
    images_rate_limit_cooldown_seconds := 3600,
    videos_rate_limit_cooldown_seconds := 3600,
    is_available := true,
    quota_cooldowns := cooldowns,
    conversation_count := 0,
    failure_count := 0,
    session_usage_count := 0 }

/-- A healthy selectable account. -/
def accOk : AccountManager := mkAccount "acc_ok" false []

/-- A second healthy account (distinct id). -/
def accOk2 : AccountManager := mkAccount "acc_ok2" false []

/-- A third healthy account (distinct id). -/
def accOk3 : AccountManager := mkAccount "acc_ok3" false []

/-- A manually disabled account with no cooldowns. -/
def accDisabled : AccountManager := mkAccount "acc_disabled" true []

/-- A disabled account that also has a live text cooldown (stamped at 500). -/
def accDisabledCooled : AccountManager := mkAccount "acc_dc" true [("text", 500)]

/-- An account whose text capability was stamped at time 500. -/
def accTextCooled : AccountManager := mkAccount "acc_text_cooled" false [("text", 500)]

/-- An account whose images capability was stamped at time 500. -/
def accImagesCooled : AccountManager := mkAccount "acc_images_cooled" false [("images", 500)]

/-- An all-zero selection counter state. -/
def selState0 : SelState := { request_counter := 0, last_account_count := 0 }

/-- A task whose cancellation flag is set. -/
def task0 : BaseTask := { logs := [], cancel_requested := true, cancel_reason := some "user cancel" }

/-- A cache entry last used at time 10. -/
def entry1 : CacheEntry := { account_id := "a1", session_id := "s1", updated_at := 10 }

/-- A one-entry session cache. -/
def cache0 : List (String × CacheEntry) := [("fp1", entry1)]

/-- Looking up the key just overwritten returns the new value. -/
theorem dictGet_overwrite {β : Type} (d : List (String × β)) (k : String) (v : β)
    (h : k ∈ d.map Prod.fst) :
    dictGet (d.map (fun p => if p.1 = k then (k, v) else p)) k = some v := by
  induction d with
  | nil => simp at h
  | cons p rest ih =>
    simp only [List.map_cons]
    by_cases hk : p.1 = k
    · rw [if_pos hk]
      simp [dictGet]
    · rw [if_neg hk]
      have h' : k ∈ rest.map Prod.fst := by
        rcases List.mem_cons.mp h with h1 | h1
        · exact absurd h1.symm hk
        · exact h1
      simp [dictGet, hk, ih h']

/-- Looking up a freshly appended key returns its value. -/
theorem dictGet_append_new {β : Type} (d : List (String × β)) (k : String) (v : β)
    (h : k ∉ d.map Prod.fst) :
    dictGet (d ++ [(k, v)]) k = some v := by
  induction d with
  | nil => simp [dictGet]
  | cons p rest ih =>
    have hk : p.1 ≠ k := fun e => h (by simp [e])
    have h' : k ∉ rest.map Prod.fst := fun hm => h (by simp [hm])
    simpa [dictGet, hk] using ih h'

/-- `dictGet` after `dictInsert` at the inserted key. -/
theorem dictGet_dictInsert_self {β : Type} (d : List (String × β)) (k : String) (v : β) :
    dictGet (dictInsert d k v) k = some v := by
  unfold dictInsert
  by_cases h : k ∈ d.map Prod.fst
  · rw [if_pos h]; exact dictGet_overwrite d k v h
  · rw [if_neg h]; exact dictGet_append_new d k v h

/-- A `none` or unrecognized quota type normalizes to `"text"`. -/
theorem normalize_quota_type_unknown (qt : Option String)
    (h : qt = none ∨ ∃ s, qt = some s ∧ s ∉ QUOTA_TYPES) :
    normalize_quota_type qt = "text" := by
  rcases h with h | ⟨s, rfl, hs⟩
  · subst h; rfl
  · simp [normalize_quota_type, hs]

/-- C10: recording a failure with a missing or unrecognized capability
name (`quota_type` equal to `None` or not one of text/images/videos)
applies the cooldown to the `text` capability, on both the non-HTTP
failure path and the HTTP failure path for non-400 statuses: both
silently substitute `"text"` and stamp its cooldown with the current
time. -/
theorem C10_unknown_capability_falls_back_to_text :
    ∀ (acc : AccountManager) (now : Int) (qt : Option String),
      (qt = none ∨ ∃ s, qt = some s ∧ s ∉ QUOTA_TYPES) →
      dictGet (acc.handle_non_http_error now qt).quota_cooldowns "text" = some now
      ∧ ∀ status : Int, status ≠ 400 →
          dictGet (acc.handle_http_error now status qt).quota_cooldowns "text" = some now := by
  intro acc now qt h
  have hn := normalize_quota_type_unknown qt h
  constructor
  · simp [AccountManager.handle_non_http_error, hn, dictGet_dictInsert_self]
  · intro status hst
    simp [AccountManager.handle_http_error, hst, hn, dictGet_dictInsert_self]

/-- C10 witness: instantiated at a concrete account, time 1000 and the
unrecognized capability name "audio". -/
theorem C10_witness :
    dictGet ((accOk.handle_non_http_error 1000 (some "audio"))).quota_cooldowns "text" = some 1000
    ∧ dictGet ((accOk.handle_http_error 1000 503 (some "audio"))).quota_cooldowns "text" = some 1000 := by
  have h := C10_unknown_capability_falls_back_to_text accOk 1000 (some "audio")
    (Or.inr ⟨"audio", rfl, by decide⟩)
  exact ⟨h.1, h.2 503 (by decide)⟩

/-- C4 counterexample: status 429 lies in the 400 class (400 ≤ 429 < 500),
yet recording it sets a cooldown — the handler stamps the text capability
with the current time, so "a failure whose status is in the 400 class sets
no cooldown" fails on the code; only status exactly 400 is log-only. -/
theorem C4_counterexample :
    ((400:Int) ≤ 429 ∧ (429:Int) < 500)
    ∧ dictGet (accOk.handle_http_error 1000 429 (some "text")).quota_cooldowns "text" = some 1000
    ∧ accOk.quota_cooldowns = [] := by
  exact ⟨by decide, by rfl, by rfl⟩

/-- C4 (amended): recording an HTTP failure with status exactly 400 is
only logged and changes nothing; every other status (including 401, 403,
429) stamps the implicated capability's cooldown with the current time;
and the status never influences the resulting state at all — in
particular not the cooldown duration, which `get_quota_cooldown_seconds`
derives solely from the capability. -/
theorem C4_http_error_cooldowns :
    ∀ (acc : AccountManager) (now : Int) (qt : Option String) (status : Int),
      (status = 400 → acc.handle_http_error now status qt = acc)
      ∧ (status ≠ 400 →
          dictGet (acc.handle_http_error now status qt).quota_cooldowns
            (normalize_quota_type qt) = some now)
      ∧ (∀ status' : Int, status ≠ 400 → status' ≠ 400 →
          acc.handle_http_error now status qt = acc.handle_http_error now status' qt) := by
  intro acc now qt status
  refine ⟨?_, ?_, ?_⟩
  · intro h; simp [AccountManager.handle_http_error, h]
  · intro h; simp [AccountManager.handle_http_error, h, dictGet_dictInsert_self]
  · intro status' h h'; simp [AccountManager.handle_http_error, h, h']

/-- C4 witness: the amended theorem instantiated at a concrete account,
statuses 400/503/429 and capability "images". -/
theorem C4_witness :
    (accOk.handle_http_error 1000 400 (some "images") = accOk)
    ∧ dictGet (accOk.handle_http_error 1000 503 (some "images")).quota_cooldowns "images" = some 1000
    ∧ accOk.handle_http_error 1000 503 (some "images") = accOk.handle_http_error 1000 429 (some "images") := by
  have h := C4_http_error_cooldowns accOk 1000 (some "images") 503
  have h400 := (C4_http_error_cooldowns accOk 1000 (some "images") 400).1 rfl
  exact ⟨h400, h.2.1 (by decide), h.2.2 429 (by decide) (by decide)⟩

/-- With a non-empty requirement set, an unavailable text quota makes the
whole availability check fail (the text baseline is consulted first). -/
theorem are_quotas_available_of_text_false (acc : AccountManager) (now : Int)
    (qts : List String) (hne : qts ≠ [])
    (htext : acc.is_quota_available now "text" = false) :
    acc.are_quotas_available now qts = false := by
  simp [AccountManager.are_quotas_available, hne, htext]

/-- C3: while an account's text capability is cooling down it is excluded
from selection no matter which (non-empty) capability set the request
requires — every required set the gateway builds contains text; while only
its images (or videos) capability is cooling down, the account remains
selectable for a text-only request (first conjunct instantiated over all
accounts, in particular ones with an images/videos cooldown, second
conjunct). -/
theorem C3_text_baseline_rule :
    ∀ (pool : List AccountManager) (acc : AccountManager) (now : Int) (qts : List String),
      (acc ∈ pool → qts ≠ [] → acc.is_quota_available now "text" = false →
        acc ∉ get_available_accounts pool now qts)
      ∧ (acc ∈ pool → acc.config.disabled = false → acc.config.is_expired now = false →
          acc.is_quota_available now "text" = true →
          acc ∈ get_available_accounts pool now ["text"]) := by
  intro pool acc now qts
  constructor
  · intro _ hne htext hmem
    have hpred := List.of_mem_filter hmem
    have hq := are_quotas_available_of_text_false acc now qts hne htext
    by_cases hd : acc.config.disabled
    · simp [hd] at hpred
    · by_cases he : acc.config.is_expired now
      · simp [hd, he] at hpred
      · simp [hd, he, hq] at hpred
  · intro hmem hd he htext
    refine List.mem_filter.mpr ⟨hmem, ?_⟩
    have hq : acc.are_quotas_available now ["text"] = true := by
      simp [AccountManager.are_quotas_available, htext]
    simp [hd, he, hq]

/-- C3 witness: at time 600 with 3600-second windows, `accTextCooled`
(text stamped at 500) is excluded from an images request, while
`accImagesCooled` (images stamped at 500) is still selectable for a
text-only request. -/
theorem C3_witness :
    accTextCooled ∉ get_available_accounts [accTextCooled, accImagesCooled] 600 ["text", "images"]
    ∧ accImagesCooled ∈ get_available_accounts [accTextCooled, accImagesCooled] 600 ["text"] := by
  have h1 := (C3_text_baseline_rule [accTextCooled, accImagesCooled] accTextCooled 600
    ["text", "images"]).1 (by decide) (by decide) (by decide)
  have h2 := (C3_text_baseline_rule [accTextCooled, accImagesCooled] accImagesCooled 600
    ["text"]).2 (by decide) (by decide) (by decide) (by decide)
  exact ⟨h1, h2⟩

/-- C9 counterexample: on a task whose cancellation flag is set, appending
the non-allow-listed message "hello" raises the cancellation condition but
also records the entry — the log afterwards contains it — refuting "does
not record the log entry". -/
theorem C9_counterexample :
    (append_log task0 "12:00:00" "info" "hello").2 = true
    ∧ (append_log task0 "12:00:00" "info" "hello").1.logs
        = [{ time := "12:00:00", level := "info", message := "hello" }] := by
  exact ⟨by rfl, by rfl⟩

/-- The task returned by `append_log` carries the appended-and-capped
log, whichever way the cancellation check went. -/
theorem append_log_logs_eq (task : BaseTask) (t lvl msg : String) :
    (append_log task t lvl msg).1.logs =
      if (task.logs ++ [({ time := t, level := lvl, message := msg } : LogEntry)]).length > 200
      then (task.logs ++ [({ time := t, level := lvl, message := msg } : LogEntry)]).drop
             ((task.logs ++ [({ time := t, level := lvl, message := msg } : LogEntry)]).length - 200)
      else task.logs ++ [({ time := t, level := lvl, message := msg } : LogEntry)] := by
  simp only [append_log, apply_ite Prod.fst, ite_self]

theorem append_log_raised (task : BaseTask) (t lvl msg : String)
    (hc : task.cancel_requested = true)
    (hsafe : safe_messages.any (fun x => msg.startsWith x) = false) :
    (append_log task t lvl msg).2 = true := by
  unfold append_log
  simp [hc, hsafe]

/-- C9 (amended): for every task whose cancellation flag is set, appending
a log line whose message does not start with an allow-listed prefix first
records the entry (it is appended, and the log is capped to its last 200
entries, so the new entry is the final one) and then raises the
cancellation condition — cancellation still takes effect within one
logging call at any call site. -/
theorem C9_append_log_raises_after_recording :
    ∀ (task : BaseTask) (t lvl msg : String),
      task.cancel_requested = true →
      safe_messages.any (fun x => msg.startsWith x) = false →
      (append_log task t lvl msg).2 = true
      ∧ ∃ pre, (append_log task t lvl msg).1.logs
          = pre ++ [{ time := t, level := lvl, message := msg }] := by
  intro task t lvl msg hc hsafe
  refine ⟨append_log_raised task t lvl msg hc hsafe, ?_⟩
  rw [append_log_logs_eq]
  by_cases hlen :
      (task.logs ++ [({ time := t, level := lvl, message := msg } : LogEntry)]).length > 200
  · rw [if_pos hlen]
    have hk : (task.logs ++ [({ time := t, level := lvl, message := msg } : LogEntry)]).length - 200
        ≤ task.logs.length := by
      simp only [List.length_append, List.length_singleton] at hlen ⊢
      omega
    rw [List.drop_append_of_le_length hk]
    exact ⟨_, rfl⟩
  · rw [if_neg hlen]
    exact ⟨task.logs, rfl⟩

/-- C9 witness: the amended theorem instantiated at `task0` and the
message "hello". -/
theorem C9_witness :
    (append_log task0 "12:00:01" "info" "progress 1/3").2 = true
    ∧ ∃ pre, (append_log task0 "12:00:01" "info" "progress 1/3").1.logs
        = pre ++ [{ time := "12:00:01", level := "info", message := "progress 1/3" }] :=
  C9_append_log_raises_after_recording task0 "12:00:01" "info" "progress 1/3" (by rfl) (by rfl)

/-- A `for retry_idx in range(budget)` loop performs at most `budget`
iterations, wherever the first success (if any) falls. -/
theorem attempts_performed_le (f : Nat → Bool) :
    ∀ (budget i : Nat), attempts_performed f i budget ≤ budget := by
  intro budget
  induction budget with
  | zero => intro i; simp [attempts_performed]
  | succ b ih =>
    intro i
    unfold attempts_performed
    cases hf : f i with
    | true => simp [hf]
    | false =>
      simp only [hf, Bool.false_eq_true, if_false]
      have := ih (i + 1)
      omega

/-- C8: the retry loops size their budget as
`min(MAX_ACCOUNT_SWITCH_TRIES, len(available_accounts))`, so every request
performs at most that many attempts; in particular, with exactly 3
selectable accounts and a configured maximum of 5, at most 3 attempts are
performed. -/
theorem C8_retry_budget :
    ∀ (max_tries : Nat) (pool : List AccountManager) (now : Int)
      (qts : List String) (f : Nat → Bool),
      retry_loop_attempts max_tries pool now qts f
        ≤ min max_tries (get_available_accounts pool now qts).length
      ∧ ((get_available_accounts pool now qts).length = 3 → max_tries = 5 →
          retry_loop_attempts max_tries pool now qts f ≤ 3) := by
  intro max_tries pool now qts f
  have h := attempts_performed_le f
    (max_retries_for max_tries (get_available_accounts pool now qts).length) 0
  refine ⟨h, ?_⟩
  intro h3 h5
  have : max_retries_for max_tries (get_available_accounts pool now qts).length = 3 := by
    rw [h3, h5]; rfl
  calc retry_loop_attempts max_tries pool now qts f
      ≤ max_retries_for max_tries (get_available_accounts pool now qts).length := h
    _ = 3 := this

/-- C8 witness: a pool of exactly 3 selectable accounts with configured
maximum 5 and an always-failing attempt predicate performs at most 3
attempts. -/
theorem C8_witness :
    retry_loop_attempts 5 [accOk, accOk2, accOk3] 0 ["text"] (fun _ => false) ≤ 3 :=
  (C8_retry_budget 5 [accOk, accOk2, accOk3] 0 ["text"] (fun _ => false)).2 (by rfl) rfl

/-- `set_account_disabled` keeps the account id. -/
theorem set_account_disabled_id (a : AccountManager) (b : Bool) :
    (set_account_disabled a b).config.account_id = a.config.account_id := rfl

/-- `clear_quota_cooldowns` keeps the account id. -/
theorem clear_quota_cooldowns_id (a : AccountManager) :
    (clear_quota_cooldowns a).config.account_id = a.config.account_id := rfl

/-- The per-account step of the single-id enable keeps the account id. -/
theorem enable_step_id (id : String) (a : AccountManager) :
    ((if a.config.account_id = id then set_account_disabled a false else a)).config.account_id
      = a.config.account_id := by
  split <;> rfl

/-- The per-account cooldown-reset step keeps the account id. -/
theorem clear_step_id (id : String) (a : AccountManager) :
    ((if a.config.account_id = id then clear_quota_cooldowns a else a)).config.account_id
      = a.config.account_id := by
  split <;> rfl

/-- Mapping an id-preserving function over the pool does not change the
result of the id-membership test. -/
theorem any_account_id_map (pool : List AccountManager) (id : String)
    (f : AccountManager → AccountManager)
    (hf : ∀ a, (f a).config.account_id = a.config.account_id) :
    (pool.map f).any (fun a => a.config.account_id == id)
      = pool.any (fun a => a.config.account_id == id) := by
  induction pool with
  | nil => rfl
  | cons a rest ih => simp [hf, ih]

/-- Shape of a successful single-account enable: the flag write happens
first, the cooldown reset second. -/
theorem admin_enable_account_ok (pool : List AccountManager) (id : String)
    (pool' : List AccountManager)
    (h : admin_enable_account pool id = Except.ok pool') :
    pool' = (pool.map (fun a =>
        if a.config.account_id = id then set_account_disabled a false else a)).map
      (fun a => if a.config.account_id = id then clear_quota_cooldowns a else a) := by
  unfold admin_enable_account update_account_disabled_status at h
  cases hguard : pool.any (fun a => a.config.account_id == id) with
  | false =>
    simp only [hguard, Bool.false_eq_true, if_false] at h
    exact absurd h (by simp)
  | true =>
    simp only [hguard, if_true] at h
    have hguard2 : (pool.map (fun a =>
        if a.config.account_id = id then set_account_disabled a false else a)).any
          (fun a => a.config.account_id == id) = true := by
      rw [any_account_id_map pool id _ (enable_step_id id)]
      exact hguard
    simp only [hguard2, if_true] at h
    exact (Except.ok.injEq _ _ ▸ h).symm

/-- C2: the manual re-enable operation — single (`admin_enable_account`)
or bulk (`admin_bulk_enable_accounts`) — both clears the account's
`disabled` flag and resets its `quota_cooldowns` to the empty dict, so a
manual re-enable leaves the account with an empty cooldown ledger.  (The
flag write lives in `update_account_disabled_status` /
`bulk_update_account_disabled_status` in `core/account.py`; the cooldown
reset is performed by the enable endpoints in `main.py` immediately
afterwards.) -/
theorem C2_manual_enable_full_reset :
    ∀ (pool : List AccountManager) (id : String) (pool' : List AccountManager)
      (acc : AccountManager) (ids : List String),
      (admin_enable_account pool id = Except.ok pool' → acc ∈ pool' →
        acc.config.account_id = id →
        acc.config.disabled = false ∧ acc.quota_cooldowns = [])
      ∧ (acc ∈ (admin_bulk_enable_accounts pool ids).1 → acc.config.account_id ∈ ids →
        acc.config.disabled = false ∧ acc.quota_cooldowns = []) := by
  intro pool id pool' acc ids
  constructor
  · intro h hmem hid
    rw [admin_enable_account_ok pool id pool' h] at hmem
    obtain ⟨b, hb, rfl⟩ := List.mem_map.mp hmem
    obtain ⟨c, _, rfl⟩ := List.mem_map.mp hb
    have hcid : c.config.account_id = id := by
      rw [← enable_step_id id c, ← clear_step_id id _]
      exact hid
    have hbid : ((if c.config.account_id = id
        then set_account_disabled c false else c)).config.account_id = id := by
      rw [enable_step_id id c]; exact hcid
    rw [if_pos hcid, if_pos (set_account_disabled_id c false ▸ hcid)]
    exact ⟨rfl, rfl⟩
  · intro hmem hid
    unfold admin_bulk_enable_accounts bulk_update_account_disabled_status at hmem
    simp only [List.map_map] at hmem
    obtain ⟨c, _, rfl⟩ := List.mem_map.mp hmem
    simp only [Function.comp] at hid ⊢
    by_cases hm : c.config.account_id ∈ ids
    · rw [if_pos hm, if_pos ((set_account_disabled_id c false).symm ▸ hm)]
      exact ⟨rfl, rfl⟩
    · rw [if_neg hm, if_neg hm] at hid
      exact absurd hid hm

/-- C2 witness: enabling `accDisabledCooled` (disabled, text cooldown
stamped) through the single endpoint yields an account with the flag
cleared and an empty cooldown dict. -/
theorem C2_witness :
    (mkAccount "acc_dc" false []).config.disabled = false
    ∧ (mkAccount "acc_dc" false []).quota_cooldowns = [] := by
  have h := (C2_manual_enable_full_reset [accDisabledCooled] "acc_dc"
    [mkAccount "acc_dc" false []] (mkAccount "acc_dc" false []) []).1
  exact h (by rfl) (by simp) (by rfl)

/-- C1 counterexample: `accDisabled` is manually disabled (and hence not
in the selectable set), yet the explicit-id path of `get_account` returns
it instead of signalling `Unavailable` — the explicit path never consults
the disabled/expired checks of anonymous selection, refuting the claim. -/
theorem C1_counterexample :
    get_account [accDisabled] 0 selState0 0 (some "acc_disabled") ["text"]
      = Except.ok (accDisabled, selState0)
    ∧ accDisabled.config.disabled = true
    ∧ get_available_accounts [accDisabled] 0 ["text"] = [] := by
  exact ⟨by rfl, by rfl, by rfl⟩

/-- C1 (amended): on the explicit-id path, an unknown id signals
`NotFound`; a known id is returned precisely when its required-capability
quotas are available (`are_quotas_available`, which checks the text
baseline first for a non-empty requirement set), signalling `Unavailable`
otherwise — the `disabled` flag and expiry are not checked on this path,
unlike anonymous selection. -/
theorem C1_explicit_selection :
    ∀ (pool : List AccountManager) (now : Int) (s : SelState) (r : Nat)
      (id : String) (qts : List String),
      (pool.find? (fun a => a.config.account_id == id) = none →
        get_account pool now s r (some id) qts = Except.error SelectError.NotFound)
      ∧ (∀ acc, pool.find? (fun a => a.config.account_id == id) = some acc →
          acc.are_quotas_available now qts = true →
          get_account pool now s r (some id) qts = Except.ok (acc, s))
      ∧ (∀ acc, pool.find? (fun a => a.config.account_id == id) = some acc →
          acc.are_quotas_available now qts = false →
          get_account pool now s r (some id) qts = Except.error SelectError.Unavailable) := by
  intro pool now s r id qts
  refine ⟨?_, ?_, ?_⟩
  · intro h
    unfold get_account
    dsimp only
    rw [h]
  · intro acc h hq
    unfold get_account
    dsimp only
    rw [h]
    simp [AccountManager.should_retry, hq]
  · intro acc h hq
    unfold get_account
    dsimp only
    rw [h]
    simp [AccountManager.should_retry, hq]

/-- C1 witness: the amended theorem applied to a concrete pool — unknown
id signals NotFound, a healthy account is returned, and `accTextCooled`
at time 600 signals Unavailable on the explicit path. -/
theorem C1_witness :
    get_account [accOk, accTextCooled] 600 selState0 0 (some "nope") ["text"]
      = Except.error SelectError.NotFound
    ∧ get_account [accOk, accTextCooled] 600 selState0 0 (some "acc_ok") ["text"]
      = Except.ok (accOk, selState0)
    ∧ get_account [accOk, accTextCooled] 600 selState0 0 (some "acc_text_cooled") ["text"]
      = Except.error SelectError.Unavailable := by
  have h := C1_explicit_selection [accOk, accTextCooled] 600 selState0 0 "nope" ["text"]
  have h2 := C1_explicit_selection [accOk, accTextCooled] 600 selState0 0 "acc_ok" ["text"]
  have h3 := C1_explicit_selection [accOk, accTextCooled] 600 selState0 0 "acc_text_cooled" ["text"]
  exact ⟨h.1 (by rfl), h2.2.1 accOk (by rfl) (by rfl), h3.2.2 accTextCooled (by rfl) (by rfl)⟩

/-- C6: the stream decoder yields each top-level object as soon as its
closing brace is seen, never waiting for the array's closing bracket: on
the line sequence forming the two-object array it yields exactly the
object text for the first object and then the one for the second (the
closing brace inside the string "x}y" does not affect depth) — and the
first object is already yielded on the prefix that stops right after the
first object's closing brace, before any comma or closing bracket is
seen; on the truncated input it yields nothing and reports the truncation
through the non-fatal warning flag rather than an error. -/
theorem C6_stream_decoder :
    parse_json_array_stream ["[", "\x7b\"a\":1\x7d", ",", "\x7b\"b\":\"x\x7dy\"\x7d", "]"]
      = Except.ok (["\x7b\"a\":1\x7d", "\x7b\"b\":\"x\x7dy\"\x7d"], false)
    ∧ parse_json_array_stream ["[", "\x7b\"a\":1\x7d"]
      = Except.ok (["\x7b\"a\":1\x7d"], false)
    ∧ parse_json_array_stream ["[", "\x7b\"a\":1"]
      = Except.ok ([], true) := by
  exact ⟨by rfl, by rfl, by rfl⟩

/-- `rrStep` in the steady state (observed size unchanged): plain
counter-mod-n with an increment and no reseed. -/
theorem rrStep_steady (n r c : Nat) :
    rrStep n r { request_counter := c, last_account_count := n }
      = (c % n, { request_counter := c + 1, last_account_count := n }) := by
  simp [rrStep]

/-- `rrStep` on a size change: the counter is reseeded to the drawn value
before the index is taken. -/
theorem rrStep_reseed (n r : Nat) (s : SelState) (h : n ≠ s.last_account_count) :
    rrStep n r s = (r % n, { request_counter := r + 1, last_account_count := n }) := by
  simp [rrStep, h]

/-- The chosen index is a remainder modulo the selectable-set size, hence
in range whenever the set is non-empty. -/
theorem rrStep_fst_lt (n r : Nat) (s : SelState) (h : n ≠ 0) : (rrStep n r s).1 < n :=
  Nat.mod_lt _ (Nat.pos_of_ne_zero h)

/-- A run that starts in the steady state stays steady and emits the
successive residues of the counter. -/
theorem rrRunIdx_steady (n : Nat) :
    ∀ (k : Nat) (rs : Nat → Nat) (c : Nat),
      rrRunIdx n rs k { request_counter := c, last_account_count := n }
        = (List.range k).map (fun i => (c + i) % n) := by
  intro k
  induction k with
  | zero => intro rs c; rfl
  | succ k ih =>
    intro rs c
    simp only [rrRunIdx]
    rw [rrStep_steady]
    simp only []
    rw [ih]
    rw [List.range_succ_eq_map]
    simp only [List.map_cons, List.map_map, Nat.add_zero, List.cons.injEq]
    refine ⟨trivial, ?_⟩
    apply List.map_congr_left
    intro i _
    simp only [Function.comp]
    congr 1
    omega

/-- Any `n`-call run with stable selectable-set size `n` emits the
residues `(c0 + i) % n` for `i < n`, for the counter value `c0` in force
after the (at most one) reseed of the first call. -/
theorem rrRunIdx_full (n : Nat) (hn : 0 < n) (rs : Nat → Nat) (s : SelState) :
    ∃ c0, rrRunIdx n rs n s = (List.range n).map (fun i => (c0 + i) % n) := by
  obtain ⟨m, rfl⟩ : ∃ m, n = m + 1 := ⟨n - 1, by omega⟩
  obtain ⟨c, l⟩ := s
  by_cases h : m + 1 = l
  · refine ⟨c, ?_⟩
    subst h
    exact rrRunIdx_steady (m + 1) (m + 1) rs c
  · refine ⟨rs 0, ?_⟩
    simp only [rrRunIdx]
    rw [rrStep_reseed _ _ _ h]
    simp only []
    rw [rrRunIdx_steady]
    rw [List.range_succ_eq_map]
    simp only [List.map_cons, List.map_map, Nat.add_zero, List.cons.injEq]
    refine ⟨trivial, ?_⟩
    apply List.map_congr_left
    intro i _
    simp only [Function.comp]
    congr 1
    omega

/-- The residue `j` is hit by a shifted index below `n`. -/
theorem shift_mod_hits (n c0 j : Nat) (hn : 0 < n) (hj : j < n) :
    (c0 + (j + (n - c0 % n)) % n) % n = j := by
  rw [Nat.add_mod_mod]
  rw [← Nat.mod_add_mod]
  have h2 : c0 % n < n := Nat.mod_lt _ hn
  have h3 : c0 % n + (j + (n - c0 % n)) = j + n := by omega
  rw [h3, Nat.add_mod_right]
  exact Nat.mod_eq_of_lt hj

/-- Each residue below `n` occurs exactly once among the `n` successive
shifted residues — the round-robin fairness core. -/
theorem count_shift_mod (n c0 j : Nat) (hn : 0 < n) (hj : j < n) :
    ((List.range n).map (fun i => (c0 + i) % n)).count j = 1 := by
  apply List.count_eq_one_of_mem
  · apply List.Nodup.map_on ?_ (List.nodup_range n)
    intro x hx y hy hxy
    have hx' : x < n := List.mem_range.mp hx
    have hy' : y < n := List.mem_range.mp hy
    have hmod : Nat.ModEq n x y := Nat.ModEq.add_left_cancel' c0 hxy
    calc x = x % n := (Nat.mod_eq_of_lt hx').symm
      _ = y % n := hmod
      _ = y := Nat.mod_eq_of_lt hy'
  · exact List.mem_map.mpr
      ⟨(j + (n - c0 % n)) % n, List.mem_range.mpr (Nat.mod_lt _ hn),
        shift_mod_hits n c0 j hn hj⟩

/-- C5: round-robin fairness and mechanism.  (1) Anonymous selection with
a non-empty selectable set picks exactly the account at index
`(rrStep …).1` of the filtered list — `counter mod N` after the optional
reseed — and stores the incremented counter; (2) the counter is not
reseeded when the selectable-set size equals the previously observed
size, and (3) is reseeded to the drawn random value exactly when it
differs; (4) over `N` consecutive calls with the selectable-set size
stable at `N > 0`, every index below `N` is chosen exactly once — each
selectable account is visited exactly once, in the fixed cyclic order of
successive residues. -/
theorem C5_round_robin :
    ∀ (pool : List AccountManager) (now : Int) (qts : List String) (s : SelState)
      (r : Nat) (rs : Nat → Nat) (n j : Nat),
      ((get_available_accounts pool now qts).length ≠ 0 →
        ∃ a, (get_available_accounts pool now qts)[(rrStep
              (get_available_accounts pool now qts).length r s).1]? = some a
          ∧ get_account pool now s r none qts
              = Except.ok (bump_session_usage a,
                  (rrStep (get_available_accounts pool now qts).length r s).2))
      ∧ (n = s.last_account_count →
          rrStep n r s = (s.request_counter % n,
            { request_counter := s.request_counter + 1,
              last_account_count := s.last_account_count }))
      ∧ (n ≠ s.last_account_count →
          rrStep n r s = (r % n, { request_counter := r + 1, last_account_count := n }))
      ∧ (0 < n → j < n → (rrRunIdx n rs n s).count j = 1) := by
  intro pool now qts s r rs n j
  refine ⟨?_, ?_, ?_, ?_⟩
  · intro hne
    have hlt := rrStep_fst_lt (get_available_accounts pool now qts).length r s hne
    have hsome := List.getElem?_eq_getElem hlt
    refine ⟨(get_available_accounts pool now qts)[(rrStep
      (get_available_accounts pool now qts).length r s).1], hsome, ?_⟩
    unfold get_account
    dsimp only
    rw [if_neg hne, hsome]
  · intro h
    obtain ⟨c, l⟩ := s
    simp only at h
    subst h
    exact rrStep_steady n r c
  · exact rrStep_reseed n r s
  · intro hn hj
    obtain ⟨c0, hc0⟩ := rrRunIdx_full n hn rs s
    rw [hc0]
    exact count_shift_mod n c0 j hn hj

/-- C5 witness: instantiations with a one-account pool (anonymous
selection picks it via the counter), a steady step, a reseeding step, and
a 4-call run over size 4 hitting index 2 exactly once. -/
theorem C5_witness :
    (∃ a, (get_available_accounts [accOk] 0 ["text"])[(rrStep
          (get_available_accounts [accOk] 0 ["text"]).length 7 selState0).1]? = some a
      ∧ get_account [accOk] 0 selState0 7 none ["text"]
          = Except.ok (bump_session_usage a,
              (rrStep (get_available_accounts [accOk] 0 ["text"]).length 7 selState0).2))
    ∧ rrStep 4 7 { request_counter := 5, last_account_count := 4 }
        = (1, { request_counter := 6, last_account_count := 4 })
    ∧ rrStep 4 7 { request_counter := 5, last_account_count := 9 }
        = (3, { request_counter := 8, last_account_count := 4 })
    ∧ (rrRunIdx 4 (fun _ => 9) 4 { request_counter := 5, last_account_count := 4 }).count 2 = 1 := by
  refine ⟨(C5_round_robin [accOk] 0 ["text"] selState0 7 (fun _ => 9) 4 2).1 (by decide),
    ?_, ?_, (C5_round_robin [accOk] 0 ["text"]
      { request_counter := 5, last_account_count := 4 } 7 (fun _ => 9) 4 2).2.2.2
        (by decide) (by decide)⟩
  · exact (C5_round_robin [accOk] 0 ["text"]
      { request_counter := 5, last_account_count := 4 } 7 (fun _ => 9) 4 2).2.1 rfl
  · exact (C5_round_robin [accOk] 0 ["text"]
      { request_counter := 5, last_account_count := 9 } 7 (fun _ => 9) 4 2).2.2.1 (by decide)

/-- Members of `dictInsert`: the new binding, or an old binding whose key
is not the inserted one. -/
theorem mem_dictInsert {β : Type} (d : List (String × β)) (k : String) (v : β)
    (p : String × β) (hp : p ∈ dictInsert d k v) :
    p = (k, v) ∨ (p ∈ d ∧ p.1 ≠ k) := by
  unfold dictInsert at hp
  by_cases hk : k ∈ d.map Prod.fst
  · rw [if_pos hk] at hp
    obtain ⟨q, hq, rfl⟩ := List.mem_map.mp hp
    by_cases hqk : q.1 = k
    · left; rw [if_pos hqk]
    · right; rw [if_neg hqk]; exact ⟨hq, hqk⟩
  · rw [if_neg hk] at hp
    rcases List.mem_append.mp hp with h | h
    · right
      refine ⟨h, ?_⟩
      intro he
      exact hk (List.mem_map.mpr ⟨p, h, he⟩)
    · left; simpa using h

/-- A successful lookup names a binding of the list. -/
theorem dictGet_mem {β : Type} (d : List (String × β)) (k : String) (v : β)
    (h : dictGet d k = some v) : (k, v) ∈ d := by
  induction d with
  | nil => simp [dictGet] at h
  | cons q rest ih =>
    obtain ⟨k', v'⟩ := q
    by_cases hk : k' = k
    · rw [show dictGet ((k', v') :: rest) k = if k' = k then some v' else dictGet rest k from rfl,
        if_pos hk] at h
      injection h with h
      subst hk h
      exact List.mem_cons_self _ _
    · rw [show dictGet ((k', v') :: rest) k = if k' = k then some v' else dictGet rest k from rfl,
        if_neg hk] at h
      exact List.mem_cons_of_mem _ (ih h)

/-- With pairwise-distinct keys, every binding is found by lookup. -/
theorem dictGet_of_mem_nodup {β : Type} (d : List (String × β)) (p : String × β)
    (hnd : (dictKeys d).Nodup) (hp : p ∈ d) : dictGet d p.1 = some p.2 := by
  induction d with
  | nil => simp at hp
  | cons q rest ih =>
    obtain ⟨k', v'⟩ := q
    rw [dictKeys, List.map_cons, List.nodup_cons] at hnd
    rcases List.mem_cons.mp hp with h | hmem
    · subst h
      simp [dictGet]
    · have hk : k' ≠ p.1 := by
        intro he
        exact hnd.1 (he ▸ List.mem_map.mpr ⟨p, hmem, rfl⟩)
      rw [show dictGet ((k', v') :: rest) p.1
          = if k' = p.1 then some v' else dictGet rest p.1 from rfl, if_neg hk]
      exact ih hnd.2 hmem

/-- With pairwise-distinct keys, a binding whose key looks up to `v` is
the binding `(k, v)` itself. -/
theorem eq_of_mem_of_dictGet_nodup {β : Type} (d : List (String × β)) (p : String × β)
    (k : String) (v : β) (hnd : (dictKeys d).Nodup) (hp : p ∈ d) (hk : p.1 = k)
    (hget : dictGet d k = some v) : p = (k, v) := by
  have h1 := dictGet_of_mem_nodup d p hnd hp
  rw [hk, hget] at h1
  injection h1 with h1
  calc p = (p.1, p.2) := rfl
    _ = (k, v) := by rw [hk, h1]

/-- A failed lookup stays failed on any sublist produced by `filter`. -/
theorem dictGet_filter_none {β : Type} (d : List (String × β)) (k : String)
    (q : String × β → Bool) (h : dictGet d k = none) :
    dictGet (d.filter q) k = none := by
  induction d with
  | nil => simp [dictGet]
  | cons p rest ih =>
    obtain ⟨k', v'⟩ := p
    by_cases hk : k' = k
    · rw [show dictGet ((k', v') :: rest) k = if k' = k then some v' else dictGet rest k from rfl,
        if_pos hk] at h
      exact absurd h (by simp)
    · rw [show dictGet ((k', v') :: rest) k = if k' = k then some v' else dictGet rest k from rfl,
        if_neg hk] at h
      rw [List.filter_cons]
      split
      · rw [show dictGet ((k', v') :: rest.filter q) k
            = if k' = k then some v' else dictGet (rest.filter q) k from rfl, if_neg hk]
        exact ih h
      · exact ih h

/-- If the first binding of `k` passes the filter, lookup afterwards still
returns it. -/
theorem dictGet_filter_of_true {β : Type} (d : List (String × β)) (k : String) (v : β)
    (q : String × β → Bool) (hget : dictGet d k = some v) (hq : q (k, v) = true) :
    dictGet (d.filter q) k = some v := by
  induction d with
  | nil => simp [dictGet] at hget
  | cons p rest ih =>
    obtain ⟨k', v'⟩ := p
    by_cases hk : k' = k
    · rw [show dictGet ((k', v') :: rest) k = if k' = k then some v' else dictGet rest k from rfl,
        if_pos hk] at hget
      injection hget with hget
      subst hk hget
      rw [List.filter_cons, if_pos (by simpa using hq)]
      simp [dictGet]
    · rw [show dictGet ((k', v') :: rest) k = if k' = k then some v' else dictGet rest k from rfl,
        if_neg hk] at hget
      rw [List.filter_cons]
      split
      · rw [show dictGet ((k', v') :: rest.filter q) k
            = if k' = k then some v' else dictGet (rest.filter q) k from rfl, if_neg hk]
        exact ih hget
      · exact ih hget

/-- With pairwise-distinct keys, if the unique binding of `k` fails the
filter, lookup afterwards returns nothing. -/
theorem dictGet_filter_of_false {β : Type} (d : List (String × β)) (k : String) (v : β)
    (q : String × β → Bool) (hnd : (dictKeys d).Nodup)
    (hget : dictGet d k = some v) (hq : q (k, v) = false) :
    dictGet (d.filter q) k = none := by
  induction d with
  | nil => simp [dictGet] at hget
  | cons p rest ih =>
    obtain ⟨k', v'⟩ := p
    rw [dictKeys, List.map_cons, List.nodup_cons] at hnd
    by_cases hk : k' = k
    · rw [show dictGet ((k', v') :: rest) k = if k' = k then some v' else dictGet rest k from rfl,
        if_pos hk] at hget
      injection hget with hget
      subst hk hget
      rw [List.filter_cons, if_neg (by simpa using hq)]
      apply dictGet_filter_none
      cases hnone : dictGet rest k' with
      | none => rfl
      | some w =>
        exact absurd (List.mem_map.mpr ⟨(k', w), dictGet_mem rest k' w hnone, rfl⟩) hnd.1
    · rw [show dictGet ((k', v') :: rest) k = if k' = k then some v' else dictGet rest k from rfl,
        if_neg hk] at hget
      rw [List.filter_cons]
      split
      · rw [show dictGet ((k', v') :: rest.filter q) k
            = if k' = k then some v' else dictGet (rest.filter q) k from rfl, if_neg hk]
        exact ih hnd.2 hget
      · exact ih hnd.2 hget

/-- `dictInsert` preserves distinctness of keys. -/
theorem dictKeys_dictInsert_nodup {β : Type} (d : List (String × β)) (k : String) (v : β)
    (h : (dictKeys d).Nodup) : (dictKeys (dictInsert d k v)).Nodup := by
  unfold dictInsert dictKeys at *
  by_cases hk : k ∈ d.map Prod.fst
  · rw [if_pos hk]
    have heq : (d.map (fun p => if p.1 = k then (k, v) else p)).map Prod.fst
        = d.map Prod.fst := by
      rw [List.map_map]
      apply List.map_congr_left
      intro p _
      simp only [Function.comp]
      split
      · rename_i hp; rw [← hp]
      · rfl
    rw [heq]
    exact h
  · rw [if_neg hk, List.map_append]
    simp [List.nodup_append, h, hk]

/-- Filtering preserves distinctness of keys. -/
theorem dictKeys_filter_nodup {β : Type} (d : List (String × β)) (q : String × β → Bool)
    (h : (dictKeys d).Nodup) : (dictKeys (d.filter q)).Nodup := by
  unfold dictKeys at *
  have hs : (d.filter q).Sublist d := List.filter_sublist d
  exact h.sublist (hs.map Prod.fst)

/-- A failed lookup survives capacity enforcement (which only removes
entries). -/
theorem dictGet_ensure_none (d : List (String × CacheEntry)) (k : String)
    (h : dictGet d k = none) : dictGet (ensure_cache_size d) k = none := by
  unfold ensure_cache_size
  split
  · exact dictGet_filter_none d k _ h
  · exact h

/-- Zeta-expanded form of `ensure_cache_size`. -/
theorem ensure_cache_size_eq (d : List (String × CacheEntry)) :
    ensure_cache_size d =
      if d.length > cache_max_size then
        d.filter (fun p => if p.1 ∈ ((List.insertionSort entryLe d).take
            ((List.insertionSort entryLe d).length - cache_max_size * 8 / 10)).map Prod.fst
          then false else true)
      else d := rfl

/-- Counting the survivors of a key-set eviction: bindings whose key is in
the evicted set contribute nothing, the others all survive. -/
theorem countP_filter_keys (l1 l2 : List (String × CacheEntry)) (ks : List String)
    (h1 : ∀ p ∈ l1, p.1 ∈ ks) (h2 : ∀ p ∈ l2, p.1 ∉ ks) :
    ((l1 ++ l2).countP fun p => if p.1 ∈ ks then false else true) = l2.length := by
  rw [List.countP_append]
  have ha : (l1.countP fun p => if p.1 ∈ ks then false else true) = 0 := by
    rw [List.countP_eq_zero]
    intro p hp
    simp [h1 p hp]
  have hb : (l2.countP fun p => if p.1 ∈ ks then false else true) = l2.length := by
    rw [List.countP_eq_length]
    intro p hp
    simp [h2 p hp]
  rw [ha, hb, Nat.zero_add]

/-- Capacity enforcement leaves at most `cache_max_size` bindings. -/
theorem ensure_cache_size_length_le (d : List (String × CacheEntry))
    (hnd : (dictKeys d).Nodup) : (ensure_cache_size d).length ≤ cache_max_size := by
  rw [ensure_cache_size_eq]
  split
  · rename_i hgt
    set sorted := List.insertionSort entryLe d with hsorted
    set rc := sorted.length - cache_max_size * 8 / 10 with hrc
    set ks := (sorted.take rc).map Prod.fst with hks
    have hperm : List.Perm sorted d := List.perm_insertionSort entryLe d
    have hnd' : (sorted.map Prod.fst).Nodup := (hperm.map Prod.fst).nodup_iff.mpr hnd
    rw [← List.countP_eq_length_filter]
    rw [← hperm.countP_eq]
    have hsplit : sorted = sorted.take rc ++ sorted.drop rc :=
      (List.take_append_drop rc sorted).symm
    have hcount : (sorted.countP fun p => if p.1 ∈ ks then false else true)
        = (sorted.drop rc).length := by
      conv_lhs => rw [hsplit]
      refine countP_filter_keys _ _ ks (fun p hp => ?_) (fun p hp hin => ?_)
      · rw [hks]
        exact List.mem_map.mpr ⟨p, hp, rfl⟩
      · rw [hks] at hin
        obtain ⟨p', hp', he⟩ := List.mem_map.mp hin
        have hnd2 : ((sorted.take rc ++ sorted.drop rc).map Prod.fst).Nodup := by
          rw [← hsplit]
          exact hnd'
        rw [List.map_append] at hnd2
        exact List.disjoint_of_nodup_append hnd2
          (he ▸ List.mem_map.mpr ⟨p', hp', rfl⟩) (List.mem_map.mpr ⟨p, hp, rfl⟩)
    rw [hcount, List.length_drop]
    have hm : cache_max_size * 8 / 10 = 800 := rfl
    have hM : cache_max_size = 1000 := rfl
    omega
  · rename_i hle
    exact Nat.le_of_not_lt hle

/-- Capacity enforcement never evicts a binding whose timestamp strictly
dominates every other binding's. -/
theorem ensure_cache_size_keeps_newest (d : List (String × CacheEntry)) (k : String)
    (v : CacheEntry) (hnd : (dictKeys d).Nodup) (hget : dictGet d k = some v)
    (hmax : ∀ p ∈ d, p.1 ≠ k → p.2.updated_at < v.updated_at) :
    dictGet (ensure_cache_size d) k = some v := by
  rw [ensure_cache_size_eq]
  split
  · rename_i hgt
    set sorted := List.insertionSort entryLe d with hsorted
    set rc := sorted.length - cache_max_size * 8 / 10 with hrc
    have hperm : List.Perm sorted d := List.perm_insertionSort entryLe d
    have hsortednd : sorted.Nodup := hperm.nodup_iff.mpr hnd.of_map
    have hsor : List.Sorted entryLe sorted := List.sorted_insertionSort entryLe d
    have hnotin : k ∉ (sorted.take rc).map Prod.fst := by
      intro hin
      obtain ⟨p, hp, hpk⟩ := List.mem_map.mp hin
      have hpd : p ∈ d := hperm.subset (List.mem_of_mem_take hp)
      have hpkv : p = (k, v) := eq_of_mem_of_dictGet_nodup d p k v hnd hpd hpk hget
      have hlensorted : sorted.length = d.length := hperm.length_eq
      have hm : cache_max_size * 8 / 10 = 800 := rfl
      have hM : cache_max_size = 1000 := rfl
      have hdroplen : (sorted.drop rc).length = 800 := by
        rw [List.length_drop]
        omega
      have hne : sorted.drop rc ≠ [] := by
        intro he
        rw [he] at hdroplen
        simp at hdroplen
      obtain ⟨y, hy⟩ := List.exists_mem_of_ne_nil _ hne
      have hpw : List.Pairwise entryLe (sorted.take rc ++ sorted.drop rc) := by
        rw [List.take_append_drop]
        exact hsor
      have hle : entryLe p y := (List.pairwise_append.mp hpw).2.2 p hp y hy
      have hyd : y ∈ d := hperm.subset (List.mem_of_mem_drop hy)
      have hdisj : (sorted.take rc).Disjoint (sorted.drop rc) := by
        apply List.disjoint_of_nodup_append
        rw [List.take_append_drop]
        exact hsortednd
      have hyne : y.1 ≠ k := by
        intro hyk
        have hykv : y = (k, v) := eq_of_mem_of_dictGet_nodup d y k v hnd hyd hyk hget
        exact hdisj (hpkv ▸ hp) (hykv ▸ hy)
      have hlt := hmax y hyd hyne
      rw [hpkv] at hle
      exact absurd hle (not_le.mpr hlt)
    apply dictGet_filter_of_true d k v _ hget
    show (if k ∈ (sorted.take rc).map Prod.fst then false else true) = true
    rw [if_neg hnotin]
  · exact hget

/-- C7: session-affinity cache contract.  (1) `put` followed immediately
by `get` with the same fingerprint returns the just-inserted binding
(same account id and session id; stated for a well-formed cache whose
existing stamps lie strictly in the past, as they do between operations
at distinct instants — the capacity pass evicts only oldest-first, so the
fresh binding survives); (2) once a binding's age exceeds the TTL, a sweep
removes it and `get` returns nothing; (3) after capacity enforcement —
triggered by `put` or by a sweep — the cache never holds more than
`cache_max_size` entries. -/
theorem C7_session_affinity_cache :
    ∀ (cache : List (String × CacheEntry)) (conv_key account_id session_id : String)
      (now ttl : Int) (e : CacheEntry),
      ((dictKeys cache).Nodup → (∀ p ∈ cache, p.2.updated_at < now) →
        dictGet (set_session_cache cache conv_key account_id session_id now) conv_key
          = some { account_id := account_id, session_id := session_id, updated_at := now })
      ∧ ((dictKeys cache).Nodup → dictGet cache conv_key = some e →
          now - e.updated_at > ttl →
          dictGet (background_cleanup_step cache now ttl) conv_key = none)
      ∧ ((dictKeys cache).Nodup →
          (set_session_cache cache conv_key account_id session_id now).length ≤ cache_max_size
          ∧ (background_cleanup_step cache now ttl).length ≤ cache_max_size) := by
  intro cache conv_key account_id session_id now ttl e
  refine ⟨?_, ?_, ?_⟩
  · intro hnd hlt
    unfold set_session_cache
    apply ensure_cache_size_keeps_newest
    · exact dictKeys_dictInsert_nodup cache conv_key _ hnd
    · exact dictGet_dictInsert_self _ _ _
    · intro p hp hne
      rcases mem_dictInsert _ _ _ p hp with h | ⟨hmem, _⟩
      · exact absurd (congrArg Prod.fst h) hne
      · exact hlt p hmem
  · intro hnd hget hex
    unfold background_cleanup_step
    apply dictGet_ensure_none
    unfold clean_expired_cache
    apply dictGet_filter_of_false cache conv_key e _ hnd hget
    show (if now - e.updated_at > ttl then false else true) = false
    rw [if_pos hex]
  · intro hnd
    constructor
    · unfold set_session_cache
      exact ensure_cache_size_length_le _ (dictKeys_dictInsert_nodup cache conv_key _ hnd)
    · unfold background_cleanup_step
      exact ensure_cache_size_length_le _ (dictKeys_filter_nodup cache _ hnd)

/-- C7 witness: on the one-entry cache stamped at 10, at time 20 with TTL
5 — put-then-get returns the fresh binding, the sweep removes the stale
binding, and both operations respect the capacity bound. -/
theorem C7_witness :
    dictGet (set_session_cache cache0 "fp2" "a2" "s2" 20) "fp2"
      = some { account_id := "a2", session_id := "s2", updated_at := 20 }
    ∧ dictGet (background_cleanup_step cache0 20 5) "fp1" = none
    ∧ (set_session_cache cache0 "fp2" "a2" "s2" 20).length ≤ cache_max_size
    ∧ (background_cleanup_step cache0 20 5).length ≤ cache_max_size := by
  have h1 := C7_session_affinity_cache cache0 "fp2" "a2" "s2" 20 5 entry1
  have h2 := C7_session_affinity_cache cache0 "fp1" "a2" "s2" 20 5 entry1
  refine ⟨h1.1 (by decide) ?_, h2.2.1 (by decide) (by rfl) (by decide),
    (h1.2.2 (by decide)).1, (h1.2.2 (by decide)).2⟩
  intro p hp
  rcases List.mem_cons.mp hp with h | h
  · rw [h]; decide
  · simp at h
